import Mathlib

/-!
Verification of the docsy ingestion pipeline core.

The development shallowly embeds the pipeline stages of the repository:

* the candidate selector and importance ranker (`filterDocs`,
  `calculateDocScore`, `prioritizeDocsByImportance`),
* the content normalizer (`cleanContentPreservingStructure`, `cleanFiles`,
  `isLowValuePath`, `containsLoremIpsum`),
* the structural chunker (`generateChunkId`, `chunkFiles`).

Modelling conventions:

* JavaScript strings are Lean `String`s; all string algorithms are written
  over `List Char` (the `data` of a string) with structural recursion, so
  that every definition evaluates by kernel reduction.
* JavaScript regular expressions are translated into explicit character
  scanners; each scanner is annotated with the regex it embeds.
* `String.prototype.localeCompare` is modelled as code-point lexicographic
  comparison (the default-locale approximation on plain ASCII paths).
* `RecursiveCharacterTextSplitter` (an external langchain dependency) is
  modelled as an abstract `split : String → List String` parameter; the
  chunker theorems hold for every splitter.
* JavaScript `Date` values are modelled as `Nat` (they are only carried
  through, never inspected).
-/

/-- Character class of JavaScript `\s` (also the set trimmed by
`String.prototype.trimEnd`): tab, line feed, vertical tab, form feed,
carriage return, space, NBSP, Ogham space mark, the U+2000–U+200A range,
line/paragraph separator, narrow NBSP, medium mathematical space,
ideographic space, and BOM. -/
def jsWs (c : Char) : Bool :=
  c.toNat == 0x9 || c.toNat == 0xA || c.toNat == 0xB || c.toNat == 0xC ||
  c.toNat == 0xD || c.toNat == 0x20 || c.toNat == 0xA0 || c.toNat == 0x1680 ||
  (decide (0x2000 ≤ c.toNat) && decide (c.toNat ≤ 0x200A)) ||
  c.toNat == 0x2028 || c.toNat == 0x2029 || c.toNat == 0x202F ||
  c.toNat == 0x205F || c.toNat == 0x3000 || c.toNat == 0xFEFF

/-- Model of `String.prototype.trimEnd` on character lists. -/
def trimEnd (l : List Char) : List Char :=
  (l.reverse.dropWhile jsWs).reverse

/-- Decimal digit character (used only with `d < 10`). -/
def digitChar (d : Nat) : Char :=
  Char.ofNat (48 + d)

/-- Fueled decimal printer for natural numbers; the fuel is structural so
the definition reduces in the kernel.  With fuel `n + 1` it prints `n`. -/
def natToDigits : Nat → Nat → List Char
  | 0, _ => []
  | fuel + 1, n =>
    if n < 10 then [digitChar n]
    else natToDigits fuel (n / 10) ++ [digitChar (n % 10)]

/-- Model of JavaScript number-to-string conversion (`${index}`) for the
non-negative integers that occur as chunk ordinals. -/
def natRepr (n : Nat) : List Char :=
  natToDigits (n + 1) n

/-- Decimal reader, inverse of `natRepr`; used to prove `natRepr`
injective. -/
def parseNat (l : List Char) : Nat :=
  l.foldl (fun a c => a * 10 + (c.toNat - 48)) 0

theorem parseNat_append (xs ys : List Char) :
    parseNat (xs ++ ys) = ys.foldl (fun a c => a * 10 + (c.toNat - 48)) (parseNat xs) := by
  unfold parseNat
  exact List.foldl_append _ _ xs ys

theorem parseNat_natToDigits : ∀ fuel n, n < fuel → parseNat (natToDigits fuel n) = n := by
  intro fuel
  induction fuel with
  | zero => intro n h; omega
  | succ f ih =>
    intro n h
    unfold natToDigits
    by_cases h10 : n < 10
    · simp only [if_pos h10]
      have hsmall : ∀ m, m < 10 → parseNat [digitChar m] = m := by decide
      exact hsmall n h10
    · simp only [if_neg h10]
      rw [parseNat_append]
      have hdiv : n / 10 < f := by omega
      have hrec := ih (n / 10) hdiv
      simp only [List.foldl_cons, List.foldl_nil, hrec]
      have hd : ∀ m, m < 10 → (digitChar m).toNat - 48 = m := by decide
      rw [hd (n % 10) (by omega)]
      omega

theorem natRepr_injective {m n : Nat} (h : natRepr m = natRepr n) : m = n := by
  have hm := parseNat_natToDigits (m + 1) m (by omega)
  have hn := parseNat_natToDigits (n + 1) n (by omega)
  unfold natRepr at h
  rw [h] at hm
  rw [hn] at hm
  omega

/-! ## Structural chunker (`chunk-files.ts`) -/

/-- Embedding of the `RawFile` interface of `github.types.ts`. -/
structure RawFile where
  path : String
  content : String
  url : String
  sha : String
  size : Nat
  fetchedAt : Nat
deriving DecidableEq

/-- Embedding of the chunk `metadata` record built in `chunkFiles`. -/
structure ChunkMetadata where
  filePath : String
  fileSha : String
  chunkIndex : Nat
  totalChunks : Nat
  previousChunkId : Option String
  nextChunkId : Option String
deriving DecidableEq

/-- Embedding of the `Chunk` interface of `github.types.ts`. -/
structure Chunk where
  id : String
  content : String
  metadata : ChunkMetadata
deriving DecidableEq

/-- Character kept unchanged by the `safePath` sanitizer in
`generateChunkId`: ASCII alphanumerics, the forward slash, and the hyphen
(the complement of the regex class `[^a-zA-Z0-9 slash hyphen]`). -/
def chunkIdSafeChar (c : Char) : Bool :=
  c.isAlphanum || c == '/' || c == '-'

/-- Model of the `filePath.replace` call in `generateChunkId`, which
rewrites every non-safe character to a hyphen. -/
def sanitizePath (l : List Char) : List Char :=
  l.map (fun c => if chunkIdSafeChar c then c else '-')

/-- Character content of a chunk id: `{safePath}-{first8CharsOfSha}-{index}`. -/
def chunkIdChars (path sha : List Char) (index : Nat) : List Char :=
  sanitizePath path ++ '-' :: (sha.take 8 ++ '-' :: natRepr index)

/-- Embedding of `generateChunkId` from `chunk-files.ts`: the sanitized
path, the first 8 characters of the file sha (`substring(0, 8)`), and the
decimal chunk index, joined by `-`. -/
def generateChunkId (filePath fileSha : String) (index : Nat) : String :=
  String.mk (chunkIdChars filePath.data fileSha.data index)

/-- Chunk built for ordinal `index` of a file that splits into `total`
documents, mirroring the record literal in `chunkFiles`. -/
def mkChunk (file : RawFile) (total : Nat) (index : Nat) (doc : String) : Chunk :=
  { id := generateChunkId file.path file.sha index
    content := doc
    metadata :=
      { filePath := file.path
        fileSha := file.sha
        chunkIndex := index
        totalChunks := total
        previousChunkId :=
          if 0 < index then some (generateChunkId file.path file.sha (index - 1)) else none
        nextChunkId :=
          if index < total - 1 then some (generateChunkId file.path file.sha (index + 1)) else none } }

/-- Indexed traversal of the splitter output (`docs.map((doc, index) => ...)`). -/
def fileChunksAux (file : RawFile) (total : Nat) : Nat → List String → List Chunk
  | _, [] => []
  | i, d :: ds => mkChunk file total i d :: fileChunksAux file total (i + 1) ds

/-- Chunks produced for a single file from its splitter output. -/
def fileChunks (docs : List String) (file : RawFile) : List Chunk :=
  fileChunksAux file docs.length 0 docs

/-- Embedding of `chunkFiles`, parametric in the external splitter: each
file's chunks are appended to the flat output in input order. -/
def chunkFiles (split : String → List String) (files : List RawFile) : List Chunk :=
  files.flatMap (fun f => fileChunks (split f.content) f)

theorem fileChunksAux_length (file : RawFile) (total : Nat) :
    ∀ ds i, (fileChunksAux file total i ds).length = ds.length := by
  intro ds
  induction ds with
  | nil => intro i; rfl
  | cons d ds ih =>
    intro i
    simp [fileChunksAux, ih]

theorem fileChunksAux_getElem? (file : RawFile) (total : Nat) :
    ∀ ds i j, (fileChunksAux file total i ds)[j]? =
      (ds[j]?).map (fun d => mkChunk file total (i + j) d) := by
  intro ds
  induction ds with
  | nil => intro i j; simp [fileChunksAux]
  | cons d ds ih =>
    intro i j
    cases j with
    | zero => simp [fileChunksAux]
    | succ j =>
      have harith : i + 1 + j = i + (j + 1) := by omega
      simp only [fileChunksAux, List.getElem?_cons_succ, ih (i + 1) j, harith]

theorem fileChunks_length (docs : List String) (file : RawFile) :
    (fileChunks docs file).length = docs.length :=
  fileChunksAux_length file docs.length docs 0

theorem fileChunks_getElem? (docs : List String) (file : RawFile) (j : Nat) :
    (fileChunks docs file)[j]? = (docs[j]?).map (fun d => mkChunk file docs.length j d) := by
  unfold fileChunks
  rw [fileChunksAux_getElem?]
  simp

theorem generateChunkId_injective (p s : String) {i j : Nat}
    (h : generateChunkId p s i = generateChunkId p s j) : i = j := by
  unfold generateChunkId at h
  have h1 : chunkIdChars p.data s.data i = chunkIdChars p.data s.data j :=
    congrArg String.data h
  unfold chunkIdChars at h1
  have h2 := List.append_cancel_left h1
  injection h2 with _ h3
  have h4 := List.append_cancel_left h3
  injection h4 with _ h5
  exact natRepr_injective h5

/-- C1: for every input file from which the chunker produces `k` chunks,
chunk 0 has `previousChunkId = null`, chunk `k - 1` has
`nextChunkId = null`, every interior chunk's `previousChunkId` and
`nextChunkId` equal the ids of the immediately preceding and following
chunks of the same file, and every chunk carries `chunkIndex` equal to its
zero-based ordinal and `totalChunks` equal to `k`.  The neighbour clauses
are phrased with optional indexing, so they also assert the `null` ends. -/
theorem chunkLinkage_C1 (split : String → List String) (file : RawFile) (i : Nat) (c : Chunk)
    (h : (fileChunks (split file.content) file)[i]? = some c) :
    c.metadata.chunkIndex = i ∧
    c.metadata.totalChunks = (fileChunks (split file.content) file).length ∧
    c.metadata.previousChunkId =
      (if i = 0 then none
       else ((fileChunks (split file.content) file)[i - 1]?).map Chunk.id) ∧
    c.metadata.nextChunkId = ((fileChunks (split file.content) file)[i + 1]?).map Chunk.id := by
  rw [fileChunks_getElem?] at h
  set docs := split file.content with hdocs
  have hdoc : ∃ d, docs[i]? = some d ∧ mkChunk file docs.length i d = c := by
    cases hget : docs[i]? with
    | none => rw [hget] at h; simp at h
    | some d => rw [hget] at h; exact ⟨d, rfl, by simpa using h⟩
  obtain ⟨d, hget, hc⟩ := hdoc
  have hilen : i < docs.length := (List.getElem?_eq_some_iff.mp hget).1
  subst hc
  refine ⟨rfl, (fileChunks_length docs file).symm, ?_, ?_⟩
  · by_cases h0 : i = 0
    · subst h0
      simp [mkChunk]
    · have h0' : 0 < i := Nat.pos_of_ne_zero h0
      have hprev : i - 1 < docs.length := by omega
      rw [fileChunks_getElem?, List.getElem?_eq_getElem hprev]
      simp [mkChunk, h0, h0']
  · by_cases hlast : i < docs.length - 1
    · have hnext : i + 1 < docs.length := by omega
      rw [fileChunks_getElem?, List.getElem?_eq_getElem hnext]
      simp [mkChunk, hlast]
    · have hnone : docs.length ≤ i + 1 := by omega
      rw [fileChunks_getElem?, List.getElem?_eq_none hnone]
      simp [mkChunk, hlast]

/-- Input file used to instantiate the chunk-linkage theorem. -/
def c1File : RawFile :=
  { path := "docs/intro.md", content := "abc", url := "", sha := "a1b2c3d4e5",
    size := 3, fetchedAt := 0 }

/-- Splitter output used to instantiate the chunk-linkage theorem. -/
def c1Split : String → List String := fun _ => ["s0", "s1", "s2"]

/-- Middle chunk produced by `c1Split` on `c1File`. -/
def c1Chunk : Chunk :=
  { id := "docs/intro-md-a1b2c3d4-1", content := "s1",
    metadata :=
      { filePath := "docs/intro.md", fileSha := "a1b2c3d4e5", chunkIndex := 1,
        totalChunks := 3, previousChunkId := some "docs/intro-md-a1b2c3d4-0",
        nextChunkId := some "docs/intro-md-a1b2c3d4-2" } }

/-- Witness: the chunk-linkage theorem evaluated at a concrete three-chunk
file, at the interior ordinal 1. -/
theorem chunkLinkage_C1_witness :
    c1Chunk.metadata.chunkIndex = 1 ∧
    c1Chunk.metadata.totalChunks = (fileChunks (c1Split c1File.content) c1File).length ∧
    c1Chunk.metadata.previousChunkId =
      (if 1 = 0 then none
       else ((fileChunks (c1Split c1File.content) c1File)[1 - 1]?).map Chunk.id) ∧
    c1Chunk.metadata.nextChunkId =
      ((fileChunks (c1Split c1File.content) c1File)[1 + 1]?).map Chunk.id :=
  chunkLinkage_C1 c1Split c1File 1 c1Chunk (by decide)

/-- C8 (amended): within one file's chunk sequence, ids at distinct
ordinals are pairwise distinct, and every id is the deterministic pure
function `generateChunkId` of the file path, the file sha, and the
zero-based ordinal. -/
theorem chunkIdUnique_C8 (docs : List String) (file : RawFile) (i j : Nat) (ci cj : Chunk)
    (hi : (fileChunks docs file)[i]? = some ci)
    (hj : (fileChunks docs file)[j]? = some cj)
    (hij : i ≠ j) :
    ci.id = generateChunkId file.path file.sha i ∧
    cj.id = generateChunkId file.path file.sha j ∧
    ci.id ≠ cj.id := by
  rw [fileChunks_getElem?] at hi hj
  have hci : ci.id = generateChunkId file.path file.sha i := by
    cases hget : docs[i]? with
    | none => rw [hget] at hi; simp at hi
    | some d =>
      rw [hget] at hi
      have : mkChunk file docs.length i d = ci := by simpa using hi
      rw [← this]; rfl
  have hcj : cj.id = generateChunkId file.path file.sha j := by
    cases hget : docs[j]? with
    | none => rw [hget] at hj; simp at hj
    | some d =>
      rw [hget] at hj
      have : mkChunk file docs.length j d = cj := by simpa using hj
      rw [← this]; rfl
  refine ⟨hci, hcj, ?_⟩
  rw [hci, hcj]
  intro heq
  exact hij (generateChunkId_injective file.path file.sha heq)

/-- Witness: per-file id distinctness evaluated on a concrete two-chunk
file. -/
theorem chunkIdUnique_C8_witness :
    (mkChunk c1File 2 0 "s0").id = generateChunkId c1File.path c1File.sha 0 ∧
    (mkChunk c1File 2 1 "s1").id = generateChunkId c1File.path c1File.sha 1 ∧
    (mkChunk c1File 2 0 "s0").id ≠ (mkChunk c1File 2 1 "s1").id :=
  chunkIdUnique_C8 ["s0", "s1"] c1File 0 1 (mkChunk c1File 2 0 "s0") (mkChunk c1File 2 1 "s1")
    (by decide) (by decide) (by decide)

/-- First file of the colliding run: path `a.md`. -/
def c8FileA : RawFile :=
  { path := "a.md", content := "same", url := "", sha := "s", size := 4, fetchedAt := 0 }

/-- Second file of the colliding run: path `a_md`, same content, hence the
same content-derived sha. -/
def c8FileB : RawFile :=
  { path := "a_md", content := "same", url := "", sha := "s", size := 4, fetchedAt := 0 }

/-- Counterexample to C8 as stated: one chunker run over two distinct
files whose sanitized paths and sha prefixes coincide produces the id
`a-md-s-0` twice, so the full run's ids are not pairwise distinct. -/
theorem chunkIdUnique_C8_counterexample :
    c8FileA.path ≠ c8FileB.path ∧
    ((chunkFiles (fun _ => ["same"]) [c8FileA, c8FileB]).map Chunk.id) = ["a-md-s-0", "a-md-s-0"] ∧
    ¬ ((chunkFiles (fun _ => ["same"]) [c8FileA, c8FileB]).map Chunk.id).Nodup := by
  refine ⟨by decide, by decide, by decide⟩

/-! ## Content normalizer (`clean-files.ts`) -/

/-- Model of the regex `WINDOWS_LINE_ENDINGS` replacement: every `\r\n`
pair becomes a single `\n`. -/
def replaceCRLF : List Char → List Char
  | [] => []
  | '\r' :: '\n' :: cs => '\n' :: replaceCRLF cs
  | c :: cs => c :: replaceCRLF cs

/-- Character class of the regex `ZERO_WIDTH_CHARS`: U+200B through U+200D
and U+FEFF. -/
def zeroWidthChar (c : Char) : Bool :=
  (decide (0x200B ≤ c.toNat) && decide (c.toNat ≤ 0x200D)) || c.toNat == 0xFEFF

/-- Model of the `ZERO_WIDTH_CHARS` replacement (deletion). -/
def stripZeroWidth (l : List Char) : List Char :=
  l.filter (fun c => !zeroWidthChar c)

/-- Attempt to read one `BR_TAGS` match (regex `<br`, optional whitespace,
optional slash, `>`, case-insensitive) at the head of the list, returning
the remainder on success. -/
def tryBr : List Char → Option (List Char)
  | '<' :: b :: r :: rest =>
    if (b == 'b' || b == 'B') && (r == 'r' || r == 'R') then
      match rest.dropWhile jsWs with
      | '/' :: '>' :: rest2 => some rest2
      | '>' :: rest2 => some rest2
      | _ => none
    else none
  | _ => none

/-- Fueled left-to-right scanner for the `BR_TAGS` replacement; each match
becomes a single space.  The fuel starts at the list length, which bounds
the number of scanning steps. -/
def replaceBrAux : Nat → List Char → List Char
  | 0, l => l
  | _ + 1, [] => []
  | fuel + 1, c :: cs =>
    match tryBr (c :: cs) with
    | some rest => ' ' :: replaceBrAux fuel rest
    | none => c :: replaceBrAux fuel cs

/-- Model of the `BR_TAGS` replacement. -/
def replaceBrTags (l : List Char) : List Char :=
  replaceBrAux l.length l

/-- Attempt to read one `IMG_TAGS` match (regex `<img`, any characters
other than `>`, then `>`, case-insensitive) at the head of the list. -/
def tryImg : List Char → Option (List Char)
  | '<' :: i :: m :: g :: rest =>
    if (i == 'i' || i == 'I') && (m == 'm' || m == 'M') && (g == 'g' || g == 'G') then
      match rest.dropWhile (fun c => !(c == '>')) with
      | '>' :: rest2 => some rest2
      | _ => none
    else none
  | _ => none

/-- Fueled left-to-right scanner for the `IMG_TAGS` replacement (deletion). -/
def removeImgAux : Nat → List Char → List Char
  | 0, l => l
  | _ + 1, [] => []
  | fuel + 1, c :: cs =>
    match tryImg (c :: cs) with
    | some rest => removeImgAux fuel rest
    | none => c :: removeImgAux fuel cs

/-- Model of the `IMG_TAGS` replacement. -/
def removeImgTags (l : List Char) : List Char :=
  removeImgAux l.length l

/-- Replacement emitted for a pending maximal newline run: the regex
`EXCESSIVE_NEWLINES` rewrites a run of four or more `\n` characters to
exactly two. -/
def emitNewlines (p : Nat) : List Char :=
  List.replicate (if 4 ≤ p then 2 else p) '\n'

/-- State machine for the `EXCESSIVE_NEWLINES` replacement; `p` counts the
newline run read so far. -/
def collapseNLAux : Nat → List Char → List Char
  | p, [] => emitNewlines p
  | p, c :: cs =>
    if c == '\n' then collapseNLAux (p + 1) cs
    else emitNewlines p ++ c :: collapseNLAux 0 cs

/-- Model of the `EXCESSIVE_NEWLINES` replacement. -/
def collapseNewlines (l : List Char) : List Char :=
  collapseNLAux 0 l

/-- Global pre-pass of `cleanContentPreservingStructure` (the five chained
`replace` calls, in source order): CRLF normalization, zero-width-character
stripping, `br`-tag replacement, `img`-tag removal, and excessive-newline
collapsing. -/
def globalPrePass (content : String) : String :=
  String.mk (collapseNewlines (removeImgTags (replaceBrTags (stripZeroWidth (replaceCRLF content.data)))))

/-- Model of JavaScript `content.split("\n")`. -/
def splitOnChar (sep : Char) : List Char → List (List Char)
  | [] => [[]]
  | c :: cs =>
    if c == sep then [] :: splitOnChar sep cs
    else
      match splitOnChar sep cs with
      | h :: t => (c :: h) :: t
      | [] => [[c]]

/-- Character class of the regex `\w` plus hyphen, the fence info-string
class in `CODE_FENCE`. -/
def wordDashChar (c : Char) : Bool :=
  c.isAlphanum || c == '_' || c == '-'

/-- The backtick character, written by code point. -/
def backtick : Char := Char.ofNat 96

/-- Model of the anchored regex `CODE_FENCE`: optional whitespace, three
backticks, an optional word-or-hyphen info string, optional trailing
whitespace. -/
def isCodeFence (l : List Char) : Bool :=
  match l.dropWhile jsWs with
  | c1 :: c2 :: c3 :: rest =>
    c1 == backtick && c2 == backtick && c3 == backtick &&
      (rest.dropWhile wordDashChar).all jsWs
  | _ => false

/-- Character class of the regex dot (any character except the four
JavaScript line terminators). -/
def dotChar (c : Char) : Bool :=
  !(c == '\n' || c == '\r' || c.toNat == 0x2028 || c.toNat == 0x2029)

/-- Model of the anchored regex `TABLE_LINE`: optional whitespace, a pipe,
any dot characters, a closing pipe, optional trailing whitespace. -/
def isTableLine (l : List Char) : Bool :=
  match l.dropWhile jsWs with
  | c :: rest =>
    c == '|' &&
      (match rest.reverse.dropWhile jsWs with
       | d :: mid => d == '|' && mid.all dotChar
       | [] => false)
  | [] => false

/-- Model of the regex `HEADING_LINE`: one to six leading hash marks
followed by at least one whitespace character (a prefix test). -/
def isHeading (l : List Char) : Bool :=
  let hashes := l.takeWhile (fun c => c == '#')
  decide (1 ≤ hashes.length) && decide (hashes.length ≤ 6) &&
    (match l.drop hashes.length with
     | c :: _ => jsWs c
     | [] => false)

/-- Replacement emitted for a pending maximal space run: the regex
`MULTIPLE_SPACES` rewrites a run of three or more spaces to one. -/
def emitSpaces (p : Nat) : List Char :=
  List.replicate (if 3 ≤ p then 1 else p) ' '

/-- State machine for the `MULTIPLE_SPACES` replacement. -/
def collapseSpAux : Nat → List Char → List Char
  | p, [] => emitSpaces p
  | p, c :: cs =>
    if c == ' ' then collapseSpAux (p + 1) cs
    else emitSpaces p ++ c :: collapseSpAux 0 cs

/-- Model of the `MULTIPLE_SPACES` replacement. -/
def collapseSpaces (l : List Char) : List Char :=
  collapseSpAux 0 l

/-- Line emitted by one iteration of the normalizer's line loop, given the
`(inCodeBlock, inTable)` flags. -/
def stepOut (s : Bool × Bool) (l : List Char) : List Char :=
  if isCodeFence l then trimEnd l
  else if s.1 then l
  else if isTableLine l then trimEnd l
  else if isHeading l then trimEnd l
  else trimEnd (collapseSpaces l)

/-- Flag update performed by one iteration of the normalizer's line loop:
a fence line toggles `inCodeBlock` and clears `inTable`; inside a code
block nothing changes; a table line sets `inTable`; any other line clears
`inTable`. -/
def stepState (s : Bool × Bool) (l : List Char) : Bool × Bool :=
  if isCodeFence l then (!s.1, false)
  else if s.1 then s
  else if isTableLine l then (s.1, true)
  else (s.1, false)

/-- The normalizer's line-by-line pass, threading the two mode flags. -/
def processLines (s : Bool × Bool) : List (List Char) → List (List Char)
  | [] => []
  | l :: ls => stepOut s l :: processLines (stepState s l) ls

/-- Embedding of `cleanContentPreservingStructure`: the global pre-pass,
then the line-by-line pass over the `\n`-split lines, re-joined with `\n`
and trimmed at the end. -/
def cleanContentPreservingStructure (content : String) : String :=
  String.mk (trimEnd (List.intercalate ['\n']
    (processLines (false, false) (splitOnChar '\n' (globalPrePass content).data))))

/-- Model of `String.prototype.includes`: the pattern occurs as a
contiguous sublist. -/
def listContains (pat : List Char) : List Char → Bool
  | [] => pat.isEmpty
  | c :: cs => pat.isPrefixOf (c :: cs) || listContains pat cs

/-- The `LOW_VALUE_PATH_SEGMENTS` table of `clean-files.ts`. -/
def LOW_VALUE_PATH_SEGMENTS : List String :=
  ["/__tests__/", "/fixtures/", "/mocks/"]

/-- ASCII lowercasing, the model of `String.prototype.toLowerCase` (the
inputs of interest are ASCII). -/
def toLowerChars (l : List Char) : List Char :=
  l.map Char.toLower

/-- Embedding of `isLowValuePath`: the lowercased path contains one of the
low-value segments as a substring. -/
def isLowValuePath (path : String) : Bool :=
  LOW_VALUE_PATH_SEGMENTS.any (fun seg => listContains seg.data (toLowerChars path.data))

/-- The `LOREM_IPSUM_PATTERNS` table; each regex is a case-insensitive
substring test. -/
def LOREM_IPSUM_PATTERNS : List String :=
  ["lorem ipsum", "dolor sit amet", "consectetur adipiscing", "sed do eiusmod",
   "ut labore et dolore"]

/-- Whether one lorem-ipsum pattern matches the content (the regexes are
case-insensitive literal phrases, so a match is a substring test on the
lowercased content). -/
def loremMatches (content : String) (pat : String) : Bool :=
  listContains pat.data (toLowerChars content.data)

/-- The `hits` loop of `containsLoremIpsum`.  Each non-global pattern
without capture groups contributes `match.length = 1` on success; the loop
returns early once `hits` reaches 2. -/
def loremAux (content : String) : List String → Nat → Bool
  | [], _ => false
  | p :: ps, hits =>
    let hits' := if loremMatches content p then hits + 1 else hits
    if 2 ≤ hits' then true else loremAux content ps hits'

/-- Embedding of `containsLoremIpsum`. -/
def containsLoremIpsum (content : String) : Bool :=
  loremAux content LOREM_IPSUM_PATTERNS 0

/-- Embedding of `withCleanedContent`. -/
def withCleanedContent (file : RawFile) (content : String) : RawFile :=
  { file with content := content }

/-- The filter predicate of `cleanFiles` (`return false` on a low-value
path or on placeholder content, `return true` otherwise). -/
def cleanKeep (file : RawFile) : Bool :=
  !isLowValuePath file.path && !containsLoremIpsum file.content

/-- Embedding of `cleanFiles`: drop low-value and placeholder files, then
clean the surviving contents. -/
def cleanFiles (files : List RawFile) : List RawFile :=
  (files.filter cleanKeep).map
    (fun file => withCleanedContent file (cleanContentPreservingStructure file.content))

theorem collapseNLAux_replicate (k : Nat) (b : List Char) :
    ∀ p, collapseNLAux p (List.replicate k '\n' ++ b) = collapseNLAux (p + k) b := by
  induction k with
  | zero => intro p; simp
  | succ k ih =>
    intro p
    rw [List.replicate_succ, List.cons_append]
    show collapseNLAux p ('\n' :: (List.replicate k '\n' ++ b)) = _
    rw [collapseNLAux]
    simp only [beq_self_eq_true, if_true]
    rw [ih (p + 1)]
    have : p + 1 + k = p + (k + 1) := by omega
    rw [this]

theorem collapseNLAux_noNewline (b : List Char) (hb : ∀ c ∈ b, c ≠ '\n') :
    ∀ p, collapseNLAux p b = emitNewlines p ++ b := by
  induction b with
  | nil => intro p; simp [collapseNLAux]
  | cons c cs ih =>
    intro p
    have hc : (c == '\n') = false := beq_eq_false_iff_ne.mpr (hb c (by simp))
    rw [collapseNLAux, hc]
    simp only [if_false, Bool.false_eq_true]
    rw [ih (fun d hd => hb d (by simp [hd])) 0]
    simp [emitNewlines]

/-- C9 (amended): the `EXCESSIVE_NEWLINES` stage of the global pre-pass
rewrites every maximal run of 4 or more consecutive newline characters
(3 or more blank lines) to exactly two newlines (one blank line), and
leaves runs of at most 3 newline characters (at most 2 blank lines)
unchanged. -/
theorem blankLineCollapse_C9 (a b : List Char) (k : Nat)
    (ha : ∀ c ∈ a, c ≠ '\n') (hb : ∀ c ∈ b, c ≠ '\n') :
    collapseNewlines (a ++ (List.replicate k '\n' ++ b)) =
      a ++ (List.replicate (if 4 ≤ k then 2 else k) '\n' ++ b) := by
  induction a with
  | nil =>
    simp only [List.nil_append]
    unfold collapseNewlines
    rw [collapseNLAux_replicate k b 0, collapseNLAux_noNewline b hb]
    simp [emitNewlines]
  | cons c cs ih =>
    have hc : (c == '\n') = false := beq_eq_false_iff_ne.mpr (ha c (by simp))
    simp only [List.cons_append]
    unfold collapseNewlines
    rw [collapseNLAux, hc]
    simp only [if_false, Bool.false_eq_true]
    have ihh := ih (fun d hd => ha d (by simp [hd]))
    unfold collapseNewlines at ihh
    rw [ihh]
    simp [emitNewlines]

/-- Witness: a run of five newlines between newline-free context collapses
to two, by the amended C9 theorem at a concrete input. -/
theorem blankLineCollapse_C9_witness :
    collapseNewlines (['a'] ++ (List.replicate 5 '\n' ++ ['b'])) =
      ['a'] ++ (List.replicate (if 4 ≤ 5 then 2 else 5) '\n' ++ ['b']) :=
  blankLineCollapse_C9 ['a'] ['b'] 5 (by decide) (by decide)

/-- Counterexample to C9 as stated: `a\n\n\n\nb` contains a single run of
three consecutive blank lines (four newline characters), which the claim
says the pre-pass leaves unchanged; the pre-pass rewrites it to one blank
line. -/
theorem blankLineCollapse_C9_counterexample :
    globalPrePass "a\n\n\n\nb" = "a\n\nb" ∧
    globalPrePass "a\n\n\n\nb" ≠ "a\n\n\n\nb" := by
  exact ⟨by decide, by decide⟩

theorem stepState_fst (s : Bool × Bool) (l : List Char) :
    (stepState s l).1 = if isCodeFence l then !s.1 else s.1 := by
  by_cases hf : isCodeFence l
  · simp [stepState, hf]
  · by_cases hs : s.1 <;> by_cases ht : isTableLine l <;> simp [stepState, hf, hs, ht]

theorem foldl_stepState_fst : ∀ (ls : List (List Char)) (s : Bool × Bool),
    (ls.foldl stepState s).1 = ((ls.countP isCodeFence % 2 == 1) != s.1) := by
  intro ls
  induction ls with
  | nil => intro s; cases hs : s.1 <;> simp [List.countP_nil, hs]
  | cons l ls ih =>
    intro s
    rw [List.foldl_cons, ih, List.countP_cons, stepState_fst]
    by_cases hf : isCodeFence l
    · rcases Nat.mod_two_eq_zero_or_one (ls.countP isCodeFence) with h | h
      · have h1 : (ls.countP isCodeFence + 1) % 2 = 1 := by omega
        cases hs : s.1 <;> simp [hf, h, h1]
      · have h1 : (ls.countP isCodeFence + 1) % 2 = 0 := by omega
        cases hs : s.1 <;> simp [hf, h, h1]
    · simp [hf]

theorem processLines_append (xs ys : List (List Char)) :
    ∀ s, processLines s (xs ++ ys) =
      processLines s xs ++ processLines (xs.foldl stepState s) ys := by
  induction xs with
  | nil => intro s; simp [processLines]
  | cons l xs ih =>
    intro s
    rw [List.cons_append, processLines, processLines, List.foldl_cons, ih]
    rfl

theorem stepState_inCode (t : Bool) (l : List Char) (hl : isCodeFence l = false) :
    stepState (true, t) l = (true, t) := by
  simp [stepState, hl]

theorem stepOut_inCode (t : Bool) (l : List Char) (hl : isCodeFence l = false) :
    stepOut (true, t) l = l := by
  simp [stepOut, hl]

theorem processLines_inCode (ls : List (List Char)) (hls : ∀ l ∈ ls, isCodeFence l = false) :
    ∀ t, processLines (true, t) ls = ls := by
  induction ls with
  | nil => intro t; rfl
  | cons l ls ih =>
    intro t
    have hl : isCodeFence l = false := hls l (by simp)
    rw [processLines, stepOut_inCode t l hl, stepState_inCode t l hl,
      ih (fun d hd => hls d (by simp [hd])) t]

theorem foldl_stepState_inCode (ls : List (List Char)) (hls : ∀ l ∈ ls, isCodeFence l = false) :
    ∀ t, ls.foldl stepState (true, t) = (true, t) := by
  induction ls with
  | nil => intro t; rfl
  | cons l ls ih =>
    intro t
    rw [List.foldl_cons, stepState_inCode t l (hls l (by simp)),
      ih (fun d hd => hls d (by simp [hd])) t]

/-- C10: when the content reaching the line-by-line pass has an odd number
of fence-delimiter lines, every line after the last fence delimiter is
emitted by that pass unchanged: no space collapsing, no trailing trim, no
heading or table handling. -/
theorem unclosedFence_C10 (xs ys : List (List Char))
    (hodd : (xs ++ ys).countP isCodeFence % 2 = 1)
    (hys : ∀ l ∈ ys, isCodeFence l = false) :
    processLines (false, false) (xs ++ ys) = processLines (false, false) xs ++ ys := by
  rw [processLines_append]
  congr 1
  have hcxs : xs.countP isCodeFence % 2 = 1 := by
    have hcys : ys.countP isCodeFence = 0 :=
      List.countP_eq_zero.mpr (by intro l hl; simp [hys l hl])
    rw [List.countP_append, hcys] at hodd
    omega
  rcases hp : xs.foldl stepState (false, false) with ⟨a, b⟩
  have hfst := foldl_stepState_fst xs (false, false)
  rw [hp, hcxs] at hfst
  simp only at hfst
  subst hfst
  exact processLines_inCode ys hys b

/-- Witness: a single unclosed fence followed by a line with interior and
trailing spaces; the trailing line is emitted verbatim. -/
theorem unclosedFence_C10_witness :
    processLines (false, false) ["```".data, "x   y  ".data] =
      processLines (false, false) ["```".data] ++ ["x   y  ".data] :=
  unclosedFence_C10 ["```".data] ["x   y  ".data] (by decide) (by decide)

/-- C2 (amended): in the line-by-line pass, every line strictly inside a
fenced code block is emitted byte-identical (no space collapsing, no
trimming), and the fence-delimiter lines themselves are changed only by
trailing-whitespace trimming.  The global pre-pass that runs before this
pass can still alter code-block interiors (zero-width stripping, br and
img tag rewriting, CRLF normalization, newline collapsing), so full
normalization is not byte-identical on code blocks in general. -/
theorem fencedCodeBlock_C2 (s : Bool × Bool) (f1 f2 : List Char) (body rest : List (List Char))
    (hf1 : isCodeFence f1 = true) (hf2 : isCodeFence f2 = true)
    (hbody : ∀ l ∈ body, isCodeFence l = false) (hs : s.1 = false) :
    processLines s (f1 :: (body ++ f2 :: rest)) =
      trimEnd f1 :: (body ++ trimEnd f2 :: processLines (false, false) rest) := by
  rw [processLines]
  have hout1 : stepOut s f1 = trimEnd f1 := by simp [stepOut, hf1]
  have hst1 : stepState s f1 = (true, false) := by simp [stepState, hf1, hs]
  rw [hout1, hst1, processLines_append, processLines_inCode body hbody false,
    foldl_stepState_inCode body hbody false, processLines]
  have hout2 : stepOut (true, false) f2 = trimEnd f2 := by simp [stepOut, hf2]
  have hst2 : stepState (true, false) f2 = (false, false) := by simp [stepState, hf2]
  rw [hout2, hst2]

/-- Witness: a concrete fenced block whose interior line has interior
multi-space runs; the line-by-line pass passes it through verbatim and
trims only the fence lines. -/
theorem fencedCodeBlock_C2_witness :
    processLines (false, false) ("```js".data :: (["const x =    1;".data] ++ "``` ".data :: [])) =
      trimEnd "```js".data ::
        (["const x =    1;".data] ++ trimEnd "``` ".data :: processLines (false, false) []) :=
  fencedCodeBlock_C2 (false, false) "```js".data "``` ".data ["const x =    1;".data] []
    (by decide) (by decide) (by decide) rfl

/-- Counterexample to C2 as stated: full normalization of a fenced block
whose interior line contains a zero-width space changes that interior line
(the global pre-pass strips the character), while both fence lines carry
no trailing whitespace; so normalization is not byte-identical on
code-block interiors. -/
theorem fencedCodeBlock_C2_counterexample :
    cleanContentPreservingStructure "```\na​b\n```" = "```\nab\n```" ∧
    cleanContentPreservingStructure "```\na​b\n```" ≠ "```\na​b\n```" := by
  exact ⟨by decide, by decide⟩

theorem loremAux_iff (content : String) :
    ∀ (ps : List String) (hits : Nat), hits < 2 →
      (loremAux content ps hits = true ↔ 2 ≤ hits + ps.countP (loremMatches content)) := by
  intro ps
  induction ps with
  | nil =>
    intro hits hh
    simp only [loremAux, List.countP_nil]
    constructor
    · intro h; exact absurd h (by simp)
    · intro h; omega
  | cons p ps ih =>
    intro hits hh
    rw [List.countP_cons]
    by_cases hm : loremMatches content p
    · by_cases h2 : 2 ≤ hits + 1
      · have : loremAux content (p :: ps) hits = true := by
          simp [loremAux, hm, h2]
        rw [this]
        simp only [hm, if_true, true_iff]
        omega
      · have hlt : hits + 1 < 2 := by omega
        have hstep : loremAux content (p :: ps) hits = loremAux content ps (hits + 1) := by
          simp [loremAux, hm, h2]
        rw [hstep, ih (hits + 1) hlt]
        simp only [hm, if_true]
        omega
    · have hm' : loremMatches content p = false := by simpa using hm
      have h2 : ¬ 2 ≤ hits := by omega
      have hstep : loremAux content (p :: ps) hits = loremAux content ps hits := by
        simp [loremAux, hm', h2]
      rw [hstep, ih hits hh]
      simp [hm']

theorem containsLoremIpsum_iff (content : String) :
    containsLoremIpsum content = true ↔
      2 ≤ LOREM_IPSUM_PATTERNS.countP (loremMatches content) := by
  have h := loremAux_iff content LOREM_IPSUM_PATTERNS 0 (by omega)
  simpa [containsLoremIpsum] using h

/-- C7: `cleanFiles` drops an input file if and only if its path contains
a low-value segment or its content matches at least two distinct
placeholder patterns; a file matching exactly one placeholder pattern is
retained. -/
theorem lowValueDrop_C7 (file : RawFile) :
    (cleanKeep file = false ↔
      ((∃ seg ∈ LOW_VALUE_PATH_SEGMENTS,
          listContains seg.data (toLowerChars file.path.data) = true) ∨
        2 ≤ LOREM_IPSUM_PATTERNS.countP (loremMatches file.content))) ∧
    (LOREM_IPSUM_PATTERNS.countP (loremMatches file.content) = 1 →
      isLowValuePath file.path = false →
      cleanKeep file = true) := by
  constructor
  · have h1 : cleanKeep file = false ↔
        (isLowValuePath file.path = true ∨ containsLoremIpsum file.content = true) := by
      unfold cleanKeep
      cases ha : isLowValuePath file.path <;> cases hb : containsLoremIpsum file.content <;>
        simp [ha, hb]
    have h2 : isLowValuePath file.path = true ↔
        (∃ seg ∈ LOW_VALUE_PATH_SEGMENTS,
          listContains seg.data (toLowerChars file.path.data) = true) := by
      simp [isLowValuePath, List.any_eq_true]
    rw [h1, h2, containsLoremIpsum_iff]
  · intro h1 hlow
    have hcl : containsLoremIpsum file.content = false := by
      cases hc : containsLoremIpsum file.content
      · rfl
      · exact absurd ((containsLoremIpsum_iff file.content).mp hc) (by omega)
    simp [cleanKeep, hlow, hcl]

/-- File used to instantiate the C7 theorem: its content matches exactly
one placeholder pattern (twice), and its path is not low-value. -/
def c7File : RawFile :=
  { path := "docs/a.md", content := "lorem ipsum and more lorem ipsum", url := "",
    sha := "s", size := 10, fetchedAt := 0 }

/-- Witness: a file whose content matches exactly one placeholder pattern
is retained by `cleanFiles`, by the C7 theorem at a concrete input. -/
theorem lowValueDrop_C7_witness :
    cleanKeep c7File = true :=
  (lowValueDrop_C7 c7File).2 (by decide) (by decide)

/-! ## Candidate selector and importance ranker (the `filterDocs` module) -/

/-- Embedding of the `GitTreeItem` interface of `github.types.ts`. -/
structure GitTreeItem where
  path : String
  mode : String
  type : String
  sha : String
  size : Option Nat
  url : Option String
deriving DecidableEq

/-- Embedding of the `GitTreeResponse` interface of `github.types.ts`. -/
structure GitTreeResponse where
  sha : String
  url : Option String
  tree : List GitTreeItem
  truncated : Bool
deriving DecidableEq

/-- Embedding of the `PriorityRule` interface: a weight and a predicate
over the lowercased path and its slash-separated segments. -/
structure PriorityRule where
  score : Int
  ruleMatch : List Char → List (List Char) → Bool

/-- The recognized documentation extensions. -/
def DOCS_EXTENSIONS : List String := [".md", ".mdx"]

/-- The maximum candidate file size in bytes. -/
def MAX_FILE_SIZE : Nat := 1000000

/-- The maximum number of ranked files kept. -/
def MAX_FILES_LIMIT : Nat := 150

/-- The hard-exclude directory set. -/
def HARD_EXCLUDES : List String := ["node_modules", "vendor", "dist", "build"]

/-- The low-signal directory set. -/
def LOW_SIGNAL_DIRS : List String :=
  ["test", "tests", "__tests__", "fixtures", "mocks", ".github"]

/-- The documentation-directory set. -/
def DOC_DIRS : List String := ["docs", "documentation", "doc"]

/-- The API-directory set. -/
def API_DIRS : List String := ["api", "interfaces", "modules", "reference"]

/-- The guide-directory set. -/
def GUIDE_DIRS : List String := ["guide", "guides", "tutorial", "tutorials", "concepts"]

/-- The blog-directory set. -/
def BLOG_DIRS : List String := ["blog", "_posts", "articles"]

/-- Whether some path segment belongs to a directory set
(`segments.some(s => dirs.includes(s))`). -/
def segIn (dirs : List String) (segments : List (List Char)) : Bool :=
  segments.any (fun s => (dirs.map String.data).contains s)

/-- Scanner step for the numeric-directory regex: at least two digits
followed immediately by a hyphen or underscore. -/
def checkDigitRun (cs : List Char) : Bool :=
  let ds := cs.takeWhile (fun c => c.isDigit)
  decide (2 ≤ ds.length) &&
    (match cs.drop ds.length with
     | c :: _ => c == '-' || c == '_'
     | [] => false)

/-- Model of the unanchored regex of the 625-point rule: a slash followed
by two or more digits and then a hyphen or underscore, anywhere in the
path. -/
def hasNumericDirPattern : List Char → Bool
  | [] => false
  | c :: cs => (c == '/' && checkDigitRun cs) || hasNumericDirPattern cs

/-- The `PRIORITY_RULES` table, rule for rule in source order. -/
def PRIORITY_RULES : List PriorityRule :=
  [ { score := 1000,
      ruleMatch := fun path _ => path == "readme.md".data || path == "readme.mdx".data },
    { score := 950,
      ruleMatch := fun path _ =>
        listContains "getting-started".data path || listContains "quick-start".data path ||
        listContains "quickstart".data path || listContains "installation".data path },
    { score := 900,
      ruleMatch := fun path segments =>
        List.isSuffixOf "/readme.md".data path && segments.contains "packages".data },
    { score := 800,
      ruleMatch := fun _ segments => segIn DOC_DIRS segments },
    { score := 750,
      ruleMatch := fun _ segments =>
        segments.contains "packages".data && segIn DOC_DIRS segments },
    { score := 700,
      ruleMatch := fun path _ =>
        listContains "migration".data path || listContains "upgrade".data path ||
        listContains "migrating".data path },
    { score := 650,
      ruleMatch := fun _ segments => segIn API_DIRS segments },
    { score := 625,
      ruleMatch := fun path _ => hasNumericDirPattern path },
    { score := 600,
      ruleMatch := fun _ segments => segIn GUIDE_DIRS segments },
    { score := 300,
      ruleMatch := fun _ segments =>
        segments.contains "examples".data || segments.contains "example".data },
    { score := 150,
      ruleMatch := fun _ segments => segIn BLOG_DIRS segments },
    { score := 100,
      ruleMatch := fun path segments =>
        listContains "changelog".data path || segments.contains "errors".data },
    { score := 50,
      ruleMatch := fun path _ =>
        listContains "contributing".data path || listContains "license".data path ||
        listContains "code_of_conduct".data path || listContains "security".data path } ]

/-- Embedding of `calculateDocScore`: hard excludes short-circuit to
-1000; otherwise every matching rule's weight is added, the low-signal
penalty of 500 is subtracted at most once, and 5 points are subtracted per
path segment. -/
def calculateDocScore (path : String) : Int :=
  let lower := toLowerChars path.data
  let segments := splitOnChar '/' lower
  let depth : Nat := segments.length
  if segIn HARD_EXCLUDES segments then -1000
  else
    let score := PRIORITY_RULES.foldl
      (fun acc rule => if rule.ruleMatch lower segments then acc + rule.score else acc) 0
    let score := if segIn LOW_SIGNAL_DIRS segments then score - 500 else score
    score - (depth : Int) * 5

/-- A tree entry paired with its computed score, as built inside
`prioritizeDocsByImportance`. -/
structure ScoredDoc where
  file : GitTreeItem
  score : Int
deriving DecidableEq

/-- The sort comparator as a may-precede test: ascending by the JavaScript
comparator `b.score - a.score`, with score ties broken by `localeCompare`
on the original paths (modelled as code-point order on the characters). -/
def scoredLe (a b : ScoredDoc) : Bool :=
  if a.score = b.score then decide (a.file.path.data ≤ b.file.path.data)
  else decide (b.score < a.score)

/-- Ordered insertion for the model of `Array.prototype.sort`; an element
is placed before the first list element it may precede, matching stable
sorting. -/
def insertLe (x : ScoredDoc) : List ScoredDoc → List ScoredDoc
  | [] => [x]
  | y :: ys => if scoredLe x y then x :: y :: ys else y :: insertLe x ys

/-- Stable insertion sort, the model of the `sort` call in
`prioritizeDocsByImportance`. -/
def sortScored : List ScoredDoc → List ScoredDoc
  | [] => []
  | x :: xs => insertLe x (sortScored xs)

/-- Embedding of `prioritizeDocsByImportance`: score every file, drop
scores of -1000 and below (`score > -1000` is kept), sort, and forget the
scores. -/
def prioritizeDocsByImportance (files : List GitTreeItem) : List GitTreeItem :=
  let scored := (files.map (fun file => ScoredDoc.mk file (calculateDocScore file.path))).filter
    (fun s => decide (-1000 < s.score))
  (sortScored scored).map ScoredDoc.file

/-- The per-entry filter of `filterDocs`: blob entries with a present,
non-zero size of at most `MAX_FILE_SIZE` whose lowercased path ends in a
recognized documentation extension. -/
def keepEntry (file : GitTreeItem) : Bool :=
  if file.type != "blob" then false
  else
    match file.size with
    | none => false
    | some n =>
      if n == 0 || decide (MAX_FILE_SIZE < n) then false
      else DOCS_EXTENSIONS.any (fun ext => List.isSuffixOf ext.data (toLowerChars file.path.data))

/-- Embedding of `filterDocs`: filter the tree, rank the survivors, and
truncate to `MAX_FILES_LIMIT` when the ranked list is longer (the source
additionally logs a console notice in each branch). -/
def filterDocs (gitTree : GitTreeResponse) : List GitTreeItem :=
  let filtered := gitTree.tree.filter keepEntry
  let prioritized := prioritizeDocsByImportance filtered
  if MAX_FILES_LIMIT < prioritized.length then prioritized.take MAX_FILES_LIMIT
  else prioritized

theorem insertLe_mem (x : ScoredDoc) (l : List ScoredDoc) (y : ScoredDoc) :
    y ∈ insertLe x l ↔ y = x ∨ y ∈ l := by
  induction l with
  | nil => simp [insertLe]
  | cons z zs ih =>
    by_cases h : scoredLe x z
    · rw [insertLe, if_pos h]
      simp
    · rw [insertLe, if_neg h]
      simp only [List.mem_cons, ih]
      tauto

theorem sortScored_mem (l : List ScoredDoc) (y : ScoredDoc) :
    y ∈ sortScored l ↔ y ∈ l := by
  induction l with
  | nil => simp [sortScored]
  | cons x xs ih =>
    rw [sortScored, insertLe_mem]
    simp only [List.mem_cons, ih]

theorem scoredLe_eq_true_iff (a b : ScoredDoc) :
    scoredLe a b = true ↔
      (b.score < a.score ∨ (a.score = b.score ∧ a.file.path.data ≤ b.file.path.data)) := by
  unfold scoredLe
  by_cases h : a.score = b.score
  · rw [if_pos h]
    simp [h]
  · rw [if_neg h]
    simp [h]

theorem scoredLe_total (a b : ScoredDoc) : scoredLe a b = true ∨ scoredLe b a = true := by
  rw [scoredLe_eq_true_iff, scoredLe_eq_true_iff]
  by_cases h : a.score = b.score
  · rcases le_total a.file.path.data b.file.path.data with hp | hp
    · exact Or.inl (Or.inr ⟨h, hp⟩)
    · exact Or.inr (Or.inr ⟨h.symm, hp⟩)
  · rcases lt_or_gt_of_ne h with hlt | hlt
    · exact Or.inr (Or.inl hlt)
    · exact Or.inl (Or.inl hlt)

theorem scoredLe_trans (a b c : ScoredDoc)
    (hab : scoredLe a b = true) (hbc : scoredLe b c = true) : scoredLe a c = true := by
  rw [scoredLe_eq_true_iff] at hab hbc ⊢
  rcases hab with h1 | ⟨h1e, h1p⟩ <;> rcases hbc with h2 | ⟨h2e, h2p⟩
  · left; omega
  · left; omega
  · left; omega
  · right; exact ⟨h1e.trans h2e, le_trans h1p h2p⟩

/-- The may-precede comparator as a proposition, used for sortedness. -/
def ScoredLeP (a b : ScoredDoc) : Prop := scoredLe a b = true

theorem insertLe_pairwise (x : ScoredDoc) (l : List ScoredDoc)
    (hl : l.Pairwise ScoredLeP) : (insertLe x l).Pairwise ScoredLeP := by
  induction l with
  | nil => simp [insertLe, List.Pairwise, ScoredLeP]
  | cons y ys ih =>
    rcases List.pairwise_cons.mp hl with ⟨hy, hys⟩
    by_cases hxy : scoredLe x y
    · rw [insertLe, if_pos hxy]
      refine List.pairwise_cons.mpr ⟨?_, hl⟩
      intro z hz
      rcases List.mem_cons.mp hz with rfl | hz'
      · exact hxy
      · exact scoredLe_trans x y z hxy (hy z hz')
    · rw [insertLe, if_neg hxy]
      refine List.pairwise_cons.mpr ⟨?_, ih hys⟩
      intro z hz
      rcases (insertLe_mem x ys z).mp hz with rfl | hz'
      · rcases scoredLe_total z y with h | h
        · exact absurd h hxy
        · exact h
      · exact hy z hz'

theorem sortScored_pairwise (l : List ScoredDoc) : (sortScored l).Pairwise ScoredLeP := by
  induction l with
  | nil => simp [sortScored]
  | cons x xs ih => exact insertLe_pairwise x (sortScored xs) ih

theorem filterDocs_eq_take (resp : GitTreeResponse) :
    filterDocs resp =
      (prioritizeDocsByImportance (resp.tree.filter keepEntry)).take MAX_FILES_LIMIT := by
  unfold filterDocs
  by_cases h : MAX_FILES_LIMIT < (prioritizeDocsByImportance (resp.tree.filter keepEntry)).length
  · rw [if_pos h]
  · rw [if_neg h]
    exact (List.take_of_length_le (by omega)).symm

theorem mem_prioritize_score (files : List GitTreeItem) (f : GitTreeItem)
    (hf : f ∈ prioritizeDocsByImportance files) : -1000 < calculateDocScore f.path := by
  unfold prioritizeDocsByImportance at hf
  rcases List.mem_map.mp hf with ⟨s, hs, hsf⟩
  rw [sortScored_mem] at hs
  rcases List.mem_filter.mp hs with ⟨hmem, hpred⟩
  rcases List.mem_map.mp hmem with ⟨g, _, hg⟩
  have hscore : s.score = calculateDocScore s.file.path := by
    rw [← hg]
  rw [← hsf, ← hscore]
  exact of_decide_eq_true hpred

theorem foldl_rules (lower : List Char) (segments : List (List Char)) :
    ∀ (rules : List PriorityRule) (acc : Int),
      rules.foldl (fun a r => if r.ruleMatch lower segments then a + r.score else a) acc =
        acc + ((rules.filter (fun r => r.ruleMatch lower segments)).map PriorityRule.score).sum := by
  intro rules
  induction rules with
  | nil => intro acc; simp
  | cons r rules ih =>
    intro acc
    rw [List.foldl_cons]
    by_cases hm : r.ruleMatch lower segments
    · rw [if_pos hm, ih]
      have hf : List.filter (fun r => r.ruleMatch lower segments) (r :: rules) =
          r :: List.filter (fun r => r.ruleMatch lower segments) rules := by
        simp [List.filter_cons, hm]
      rw [hf]
      simp only [List.map_cons, List.sum_cons]
      omega
    · rw [if_neg hm, ih]
      have hf : List.filter (fun r => r.ruleMatch lower segments) (r :: rules) =
          List.filter (fun r => r.ruleMatch lower segments) rules := by
        simp [List.filter_cons, hm]
      rw [hf]

/-- C3: on a hard-exclude-free path, the score is the sum of the weights
of all matching rules of the table (additive, not first-match), minus 500
exactly once when some segment is low-signal, minus 5 per slash-separated
segment of the lowercased path. -/
theorem additiveScore_C3 (path : String)
    (h : segIn HARD_EXCLUDES (splitOnChar '/' (toLowerChars path.data)) = false) :
    calculateDocScore path =
      ((PRIORITY_RULES.filter (fun r =>
          r.ruleMatch (toLowerChars path.data)
            (splitOnChar '/' (toLowerChars path.data)))).map PriorityRule.score).sum -
        (if segIn LOW_SIGNAL_DIRS (splitOnChar '/' (toLowerChars path.data)) = true
          then 500 else 0) -
        5 * ((splitOnChar '/' (toLowerChars path.data)).length : Int) := by
  unfold calculateDocScore
  simp only [h, Bool.false_eq_true, if_false]
  rw [foldl_rules]
  by_cases hl : segIn LOW_SIGNAL_DIRS (splitOnChar '/' (toLowerChars path.data)) = true
  · simp only [hl, if_true]
    omega
  · simp only [hl, if_false]
    simp only [Bool.not_eq_true] at hl
    simp only [hl, Bool.false_eq_true, if_false]
    omega

/-- Witness: the additive-score theorem at `packages/foo/docs/readme.md`,
which matches three rules (900 + 800 + 750) at depth 4 with no penalty,
together with the concrete value 2430. -/
theorem additiveScore_C3_witness :
    (calculateDocScore "packages/foo/docs/readme.md" =
      ((PRIORITY_RULES.filter (fun r =>
          r.ruleMatch (toLowerChars "packages/foo/docs/readme.md".data)
            (splitOnChar '/' (toLowerChars "packages/foo/docs/readme.md".data)))).map
        PriorityRule.score).sum -
        (if segIn LOW_SIGNAL_DIRS
            (splitOnChar '/' (toLowerChars "packages/foo/docs/readme.md".data)) = true
          then 500 else 0) -
        5 * ((splitOnChar '/'
          (toLowerChars "packages/foo/docs/readme.md".data)).length : Int)) ∧
    calculateDocScore "packages/foo/docs/readme.md" = 2430 :=
  ⟨additiveScore_C3 "packages/foo/docs/readme.md" (by decide), by decide⟩

/-- C4: a path with a hard-excluded segment anywhere scores exactly -1000
(short-circuiting the rule table), and no entry with such a path ever
appears in the ranked output. -/
theorem hardExclude_C4 (path : String) (resp : GitTreeResponse) (f : GitTreeItem)
    (hpath : segIn HARD_EXCLUDES (splitOnChar '/' (toLowerChars path.data)) = true)
    (hf : f ∈ filterDocs resp) :
    calculateDocScore path = -1000 ∧ f.path ≠ path := by
  have hscore : calculateDocScore path = -1000 := by
    unfold calculateDocScore
    simp only [hpath, if_true]
  refine ⟨hscore, ?_⟩
  have hmem : f ∈ prioritizeDocsByImportance (resp.tree.filter keepEntry) := by
    rw [filterDocs_eq_take] at hf
    exact List.mem_of_mem_take hf
  have hgt := mem_prioritize_score (resp.tree.filter keepEntry) f hmem
  intro hp
  rw [hp, hscore] at hgt
  omega

/-- Hard-excluded entry used in the C4 witness run. -/
def c4Bad : GitTreeItem :=
  { path := "node_modules/pkg/readme.md", mode := "100644", type := "blob", sha := "b",
    size := some 1000, url := none }

/-- Surviving entry of the C4 witness run. -/
def c4Good : GitTreeItem :=
  { path := "README.md", mode := "100644", type := "blob", sha := "g",
    size := some 500, url := none }

/-- Tree used in the C4 witness run. -/
def c4Resp : GitTreeResponse :=
  { sha := "r", url := none, truncated := false, tree := [c4Bad, c4Good] }

/-- Witness: in a concrete run containing a `node_modules` entry, that
path scores -1000 and the entry present in the ranked output is not it. -/
theorem hardExclude_C4_witness :
    calculateDocScore "node_modules/pkg/readme.md" = -1000 ∧
    c4Good.path ≠ "node_modules/pkg/readme.md" :=
  hardExclude_C4 "node_modules/pkg/readme.md" c4Resp c4Good (by decide) (by decide)

/-- The selector predicate as the specification states it: blob kind,
present non-zero size of at most 1,000,000 bytes, and a lowercased path
ending in a recognized documentation extension. -/
def selectorSpec (f : GitTreeItem) : Prop :=
  f.type = "blob" ∧ (∃ n, f.size = some n ∧ n ≠ 0 ∧ n ≤ 1000000) ∧
  (∃ ext ∈ DOCS_EXTENSIONS, List.isSuffixOf ext.data (toLowerChars f.path.data) = true)

/-- C5: the selector keeps an entry if and only if it satisfies the
specification predicate; in particular the 1,000,000-byte boundary is
included and 1,000,001 bytes is excluded, and the predicate is a total
function (malformed entries are dropped, never faulted on). -/
theorem selector_C5 (f : GitTreeItem) : keepEntry f = true ↔ selectorSpec f := by
  unfold keepEntry selectorSpec
  by_cases ht : f.type = "blob"
  · have htb : (f.type != "blob") = false := by simp [ht]
    rw [htb]
    simp only [Bool.false_eq_true, if_false, ht, true_and]
    cases hs : f.size with
    | none => simp
    | some n =>
      dsimp only
      by_cases hz : n == 0 || decide (MAX_FILE_SIZE < n)
      · rw [if_pos hz]
        simp only [Bool.or_eq_true, beq_iff_eq, decide_eq_true_eq] at hz
        constructor
        · intro hh; exact absurd hh (by simp)
        · rintro ⟨⟨m, hm, hm0, hmle⟩, _⟩
          injection hm with hm
          unfold MAX_FILE_SIZE at hz
          omega
      · rw [if_neg hz]
        simp only [Bool.or_eq_true, beq_iff_eq, decide_eq_true_eq, not_or] at hz
        rw [List.any_eq_true]
        constructor
        · rintro ⟨ext, hext, hsuf⟩
          exact ⟨⟨n, rfl, hz.1, by unfold MAX_FILE_SIZE at hz; omega⟩, ⟨ext, hext, hsuf⟩⟩
        · rintro ⟨_, ⟨ext, hext, hsuf⟩⟩
          exact ⟨ext, hext, hsuf⟩
  · have htb : (f.type != "blob") = true := by simp [ht]
    rw [htb]
    simp [ht]

/-- Boundary entry of exactly 1,000,000 bytes. -/
def c5Item : GitTreeItem :=
  { path := "a.md", mode := "100644", type := "blob", sha := "x",
    size := some 1000000, url := none }

/-- Witness: the boundary file of exactly 1,000,000 bytes is kept, by the
C5 equivalence applied at a concrete entry. -/
theorem selector_C5_witness : keepEntry c5Item = true :=
  (selector_C5 c5Item).mpr
    ⟨rfl, ⟨1000000, rfl, by decide, by decide⟩, ⟨".md", by decide, by decide⟩⟩

/-- The ranked-output order claimed by the specification: strictly higher
score first, score ties in ascending path order. -/
def rankedBefore (f g : GitTreeItem) : Prop :=
  calculateDocScore g.path < calculateDocScore f.path ∨
    (calculateDocScore f.path = calculateDocScore g.path ∧ f.path.data ≤ g.path.data)

theorem prioritize_pairwise (files : List GitTreeItem) :
    (prioritizeDocsByImportance files).Pairwise rankedBefore := by
  unfold prioritizeDocsByImportance
  apply List.pairwise_map.mpr
  have hsorted := sortScored_pairwise
    ((files.map (fun file => ScoredDoc.mk file (calculateDocScore file.path))).filter
      (fun s => decide (-1000 < s.score)))
  apply hsorted.imp_of_mem
  intro a b ha hb hab
  have hsa : a.score = calculateDocScore a.file.path := by
    rw [sortScored_mem] at ha
    rcases List.mem_filter.mp ha with ⟨hmem, _⟩
    rcases List.mem_map.mp hmem with ⟨g, _, hg⟩
    rw [← hg]
  have hsb : b.score = calculateDocScore b.file.path := by
    rw [sortScored_mem] at hb
    rcases List.mem_filter.mp hb with ⟨hmem, _⟩
    rcases List.mem_map.mp hmem with ⟨g, _, hg⟩
    rw [← hg]
  have h := (scoredLe_eq_true_iff a b).mp hab
  unfold rankedBefore
  rw [← hsa, ← hsb]
  exact h

/-- C6: the ranker's output is sorted descending by score with score ties
broken in ascending path order, contains at most `MAX_FILES_LIMIT` (150)
entries, is exactly the top prefix of the full ranking (truncation keeps
the highest-priority entries), and is deterministic: equal candidate sets
produce identical output (in this pure-function embedding the last point
is definitional). -/
theorem rankerOrder_C6 (resp : GitTreeResponse) :
    (filterDocs resp).length ≤ MAX_FILES_LIMIT ∧
    filterDocs resp =
      (prioritizeDocsByImportance (resp.tree.filter keepEntry)).take MAX_FILES_LIMIT ∧
    (filterDocs resp).Pairwise rankedBefore ∧
    filterDocs resp = filterDocs resp := by
  have heq := filterDocs_eq_take resp
  refine ⟨?_, heq, ?_, rfl⟩
  · rw [heq]
    simp [List.length_take]
  · rw [heq]
    exact (prioritize_pairwise _).sublist (List.take_sublist _ _)
